import Mathlib

/-
Verification development for the gatorcli repository.

The embedding translates the Go sources:
  - internal/feed (RSSFeed, RSSItem, unescapeHTMLFields, FetchFeed),
  - main.go (scrapeFeeds, handlerAgg, command dispatch in main),
  - the posts / feeds schema declarations,
into executable Lean definitions, and proves the frozen claims about them.
Machine integers are modelled as Nat / Int; time stamps as Nat; fallible
operations return Except.
-/

set_option autoImplicit false

namespace Gator

/-! ## HTML entity unescaping

Model of the Go standard library function html.UnescapeString as used by
unescapeHTMLFields in internal/feed.  The model covers named entities from a
core table plus decimal and hexadecimal numeric character references, each
terminated by a semicolon; an ampersand that does not begin a recognised
entity is kept literally, as in the library. -/

def isHexCh (c : Char) : Bool :=
  c.isDigit || ('a' ≤ c && c ≤ 'f') || ('A' ≤ c && c ≤ 'F')

def hexDigitVal (c : Char) : Nat :=
  if c.isDigit then c.toNat - 48
  else if 'a' ≤ c ∧ c ≤ 'f' then c.toNat - 87
  else c.toNat - 55

def decVal (ds : List Char) : Nat :=
  ds.foldl (fun a c => a * 10 + (c.toNat - 48)) 0

def hexVal (ds : List Char) : Nat :=
  ds.foldl (fun a c => a * 16 + hexDigitVal c) 0

/-- Valid scalar code points map to themselves; surrogate-range or
out-of-range references map to U+FFFD, as in the Go html package. -/
def codePointChar (n : Nat) : Char :=
  if n < 55296 ∨ (57343 < n ∧ n < 1114112) then Char.ofNat n else Char.ofNat 65533

def namedEntityChar (name : String) : Option Char :=
  if name = "amp" then some '&'
  else if name = "lt" then some '<'
  else if name = "gt" then some '>'
  else if name = "quot" then some (Char.ofNat 34)
  else if name = "apos" then some (Char.ofNat 39)
  else if name = "nbsp" then some (Char.ofNat 160)
  else none

/-- Recognise one character entity at the head of the list (the text right
after an ampersand); on success return the decoded character and the rest. -/
def entityAt (cs : List Char) : Option (Char × List Char) :=
  match cs with
  | '#' :: rest =>
    match rest with
    | c0 :: rest2 =>
      if c0 = 'x' ∨ c0 = 'X' then
        let (ds, r) := rest2.span isHexCh
        if ds.isEmpty then none
        else match r with
          | ';' :: rem => some (codePointChar (hexVal ds), rem)
          | _ => none
      else
        let (ds, r) := rest.span Char.isDigit
        if ds.isEmpty then none
        else match r with
          | ';' :: rem => some (codePointChar (decVal ds), rem)
          | _ => none
    | [] => none
  | _ =>
    let (nm, r) := cs.span Char.isAlphanum
    if nm.isEmpty then none
    else match r with
      | ';' :: rem => (namedEntityChar (String.mk nm)).map (fun ch => (ch, rem))
      | _ => none

def unescAux : Nat → List Char → List Char
  | 0, cs => cs
  | _ + 1, [] => []
  | fuel + 1, c :: rest =>
    if c = '&' then
      match entityAt rest with
      | some (ch, rem) => ch :: unescAux fuel rem
      | none => c :: unescAux fuel rest
    else c :: unescAux fuel rest

def unescapeString (s : String) : String :=
  String.mk (unescAux s.data.length s.data)

/-! ## XML document model and the feed parser

The Go function FetchFeed decodes the body with encoding/xml into the RSSFeed
struct, whose XMLName field carries the tag rss, so decoding fails when the
document is not well-formed XML or when its root element is not named rss.
A raw body is modelled as either malformed (any input the XML decoder rejects
as not well formed) or a well-formed element tree; field extraction follows
the struct tags of internal/feed: rss root, one channel child, item children,
and character data directly inside title / link / description / pubDate. -/

inductive XMLNode where
  | text (s : String)
  | elemNode (name : String) (children : List XMLNode)

inductive RawDoc where
  | malformed
  | wellFormed (rootName : String) (children : List XMLNode)

/-- Character data directly inside an element, skipping child elements,
following the behaviour of encoding/xml for a string field. -/
def directText (children : List XMLNode) : String :=
  children.foldl
    (fun acc n =>
      match n with
      | .text s => acc ++ s
      | .elemNode _ _ => acc) ""

def findElem (name : String) : List XMLNode → Option (List XMLNode)
  | [] => none
  | .text _ :: rest => findElem name rest
  | .elemNode n cs :: rest => if n = name then some cs else findElem name rest

def elemsNamed (name : String) (children : List XMLNode) : List (List XMLNode) :=
  children.foldr
    (fun n acc =>
      match n with
      | .elemNode m cs => if m = name then cs :: acc else acc
      | .text _ => acc) []

def childText (name : String) (children : List XMLNode) : String :=
  match findElem name children with
  | some cs => directText cs
  | none => ""

structure RSSItem where
  title : String
  link : String
  description : String
  pubDate : String
deriving Repr, DecidableEq

structure RSSChannel where
  title : String
  link : String
  description : String
  item : List RSSItem
deriving Repr, DecidableEq

structure RSSFeed where
  channel : RSSChannel
deriving Repr, DecidableEq

inductive ParseErr where
  | notWellFormed
  | wrongRoot (found : String)
deriving Repr, DecidableEq

def decodeItem (cs : List XMLNode) : RSSItem :=
  { title := childText "title" cs
    link := childText "link" cs
    description := childText "description" cs
    pubDate := childText "pubDate" cs }

def emptyChannel : RSSChannel :=
  { title := "", link := "", description := "", item := [] }

/-- Item element bodies under the channel element of a document body. -/
def channelItems (children : List XMLNode) : List (List XMLNode) :=
  match findElem "channel" children with
  | some ch => elemsNamed "item" ch
  | none => []

def decodeRSS : RawDoc → Except ParseErr RSSFeed
  | .malformed => .error .notWellFormed
  | .wellFormed root children =>
    if root = "rss" then
      match findElem "channel" children with
      | some ch =>
        .ok { channel :=
          { title := childText "title" ch
            link := childText "link" ch
            description := childText "description" ch
            item := (elemsNamed "item" ch).map decodeItem } }
      | none => .ok { channel := emptyChannel }
    else .error (.wrongRoot root)

/-- Mirrors unescapeHTMLFields in internal/feed for one item: title and
description are unescaped, link and pubDate are left untouched. -/
def unescapeItem (i : RSSItem) : RSSItem :=
  { i with
    title := unescapeString i.title
    description := unescapeString i.description }

def unescapeHTMLFields (f : RSSFeed) : RSSFeed :=
  { channel :=
    { f.channel with
      title := unescapeString f.channel.title
      description := unescapeString f.channel.description
      item := f.channel.item.map unescapeItem } }

/-! ## The Fetcher

FetchFeed in internal/feed: the transport outcome of the GET (client.Do) is
either an error — which includes a context-deadline timeout, recorded by the
timedOut flag — or a response with a status code and a body.  The code
rejects every status other than 200 (http.StatusOK), then decodes the body
and unescapes the HTML entities of the decoded feed. -/

inductive TransportResult where
  | transportError (timedOut : Bool)
  | response (status : Nat) (body : RawDoc)

inductive FetchErr where
  | network (timedOut : Bool)
  | badStatus (code : Nat)
  | unmarshal (e : ParseErr)
deriving Repr, DecidableEq

def fetchFeed (r : TransportResult) : Except FetchErr RSSFeed :=
  match r with
  | .transportError t => .error (.network t)
  | .response status body =>
    if status ≠ 200 then .error (.badStatus status)
    else
      match decodeRSS body with
      | .error e => .error (.unmarshal e)
      | .ok f => .ok (unescapeHTMLFields f)

/-! ## Scheduler state and one polling cycle (scrapeFeeds in main.go) -/

structure Feed where
  id : Nat
  name : String
  url : String
  lastFetchedAt : Option Nat
  updatedAt : Nat
deriving Repr, DecidableEq

structure DBState where
  feeds : List Feed
deriving Repr, DecidableEq

/-- Ordering key of the fetch cursor: a null (never fetched) time stamp is
older than every non-null one; non-null stamps compare numerically. -/
def tsLe : Option Nat → Option Nat → Bool
  | none, _ => true
  | some _, none => false
  | some a, some b => a ≤ b

/-- Modelled from the spec: the query GetNextFeedToFetch of the generated
internal/database package is not under src/; spec section 6 describes it as
"return the feed with the smallest last_fetched_at, treating null as
smallest".  The model returns the first feed attaining the minimal key, and
none when no feeds exist. -/
def getNextFeedToFetch : List Feed → Option Feed
  | [] => none
  | f :: fs =>
    match getNextFeedToFetch fs with
    | none => some f
    | some g => if tsLe f.lastFetchedAt g.lastFetchedAt then some f else some g

/-- Modelled from the spec: the query MarkFeedFetched of the generated
internal/database package is not under src/; spec section 6 describes it as
"set last_fetched_at and an updated-at timestamp for a given feed id". -/
def markFeedFetched (fid : Nat) (now : Nat) (feeds : List Feed) : List Feed :=
  feeds.map fun f =>
    if f.id = fid then { f with lastFetchedAt := some now, updatedAt := now } else f

/-- Observable operations of one scheduler cycle, in execution order.
The reconcileOp constructor names the reconcile step of the spec; the code of
scrapeFeeds never emits it. -/
inductive Op where
  | selectOp (fid : Nat)
  | markFetched (fid : Nat) (t : Nat)
  | fetchOp (fid : Nat)
  | parseStage (fid : Nat)
  | printTitles (fid : Nat) (n : Nat)
  | reconcileOp (fid : Nat)
deriving Repr, DecidableEq

/-- Rendering of the error values of fetchFeed, following the messages of
internal/feed. -/
def errString : FetchErr → String
  | .network _ => "failed to fetch feed"
  | .badStatus code => "bad status code: " ++ toString code
  | .unmarshal _ => "failed to unmarshal XML"

/-- Stage operations performed inside FetchFeed for one transport outcome:
the HTTP fetch always runs; the XML decode stage is reached exactly when the
transport succeeded with status 200. -/
def fetchStageOps (fid : Nat) (r : TransportResult) : List Op :=
  match r with
  | .transportError _ => [Op.fetchOp fid]
  | .response status _ =>
    if status ≠ 200 then [Op.fetchOp fid]
    else [Op.fetchOp fid, Op.parseStage fid]

structure CycleResult where
  state : DBState
  ops : List Op
  logs : List String
deriving Repr, DecidableEq

/-- One cycle of scrapeFeeds in main.go: select the next feed (returning
silently when no feeds exist), announce it, mark it fetched at the cycle
start time, then fetch and decode it; a fetch error is logged with the feed
name and URL and the cycle ends; on success the item titles are printed. -/
def scrapeFeeds (env : String → TransportResult) (now : Nat) (st : DBState) :
    CycleResult :=
  match getNextFeedToFetch st.feeds with
  | none => { state := st, ops := [], logs := [] }
  | some f =>
    let announce := ">> Fetching feed: " ++ f.name ++ " from " ++ f.url
    let st1 : DBState := { feeds := markFeedFetched f.id now st.feeds }
    let r := env f.url
    match fetchFeed r with
    | .error e =>
      { state := st1
        ops := Op.selectOp f.id :: Op.markFetched f.id now :: fetchStageOps f.id r
        logs := [announce,
          "Error fetching RSS feed " ++ f.name ++ " (" ++ f.url ++ "): " ++
            errString e] }
    | .ok rss =>
      { state := st1
        ops := (Op.selectOp f.id :: Op.markFetched f.id now ::
                  fetchStageOps f.id r) ++
               [Op.printTitles f.id rss.channel.item.length]
        logs := [announce,
          "   Successfully fetched " ++ toString rss.channel.item.length ++
            " posts from " ++ f.name,
          "<< Done with feed."] }

/-- Polling loop of handlerAgg from cycle index k on: every cycle calls
scrapeFeeds and the loop continues regardless of the cycle outcome. -/
def runCyclesFrom (env : Nat → String → TransportResult) (times : Nat → Nat) :
    Nat → Nat → DBState → DBState × List CycleResult
  | _, 0, st => (st, [])
  | k, n + 1, st =>
    let c := scrapeFeeds (env k) (times k) st
    let (stFin, rest) := runCyclesFrom env times (k + 1) n c.state
    (stFin, c :: rest)

def runCycles (env : Nat → String → TransportResult) (times : Nat → Nat)
    (n : Nat) (st : DBState) : DBState × List CycleResult :=
  runCyclesFrom env times 0 n st

/-- Feed selected by a cycle, read off its operation trace. -/
def selectedId (c : CycleResult) : Option Nat :=
  match c.ops with
  | Op.selectOp fid :: _ => some fid
  | _ => none

/-! ## The Reconciler (spec-modelled)

Modelled from the spec: the Reconciler is described in spec sections 4.3 and
6 but is not under src/ — scrapeFeeds only prints item titles, and the
repository README lists persisting fetched posts as still to do.  Only its
storage declaration is in src/: the posts table with a globally unique url
column.  The model follows the spec words: insert a post per entry; an
insert whose URL already exists is a benign no-op, not an error. -/

structure Post where
  feedId : Nat
  url : String
  title : String
deriving Repr, DecidableEq

def hasUrl (store : List Post) (u : String) : Bool :=
  store.any fun p => p.url = u

/-- Modelled from the spec: "insert a post; no-op (not an error) if the URL
already exists" — the url column of the posts table is globally unique. -/
def insertPost (store : List Post) (p : Post) : List Post :=
  if hasUrl store p.url then store else store ++ [p]

def postOfItem (fid : Nat) (i : RSSItem) : Post :=
  { feedId := fid, url := i.link, title := i.title }

/-- Modelled from the spec: reconcile a feed against its parsed entries by
attempting one insert per entry, in order. -/
def reconcile (fid : Nat) (store : List Post) (items : List RSSItem) :
    List Post :=
  items.foldl (fun s i => insertPost s (postOfItem fid i)) store

def itemUrls (items : List RSSItem) : List String :=
  items.map fun i => i.link

/-! ## Duration parsing and the agg command (handlerAgg in main.go)

The duration argument is parsed with the Go standard library function
time.ParseDuration.  The model follows its grammar: an optional sign, either
the literal 0, or one or more chunks of decimal digits with an optional
fraction followed by a unit from ns, us, µs, μs, ms, s, m, h; the result is
in nanoseconds.  The fractional contribution is computed with integer
division where Go uses float64 arithmetic. -/

def unitNanos (u : String) : Option Int :=
  if u = "ns" then some 1
  else if u = "us" then some 1000
  else if u = "µs" then some 1000
  else if u = "μs" then some 1000
  else if u = "ms" then some 1000000
  else if u = "s" then some 1000000000
  else if u = "m" then some 60000000000
  else if u = "h" then some 3600000000000
  else none

def parseChunks : Nat → List Char → Except String Int
  | 0, _ => .error "time: invalid duration"
  | _ + 1, [] => .ok 0
  | fuel + 1, cs =>
    let (intDs, r1) := cs.span Char.isDigit
    let (fracDs, r2) :=
      match r1 with
      | '.' :: rest => rest.span Char.isDigit
      | _ => ([], r1)
    if intDs.isEmpty && fracDs.isEmpty then .error "time: invalid duration"
    else
      let (us, r3) := r2.span fun c => !c.isDigit && c != '.'
      match unitNanos (String.mk us) with
      | none => .error "time: unknown unit in duration"
      | some unit =>
        let scale : Int := Int.ofNat (10 ^ fracDs.length)
        let v : Int := Int.ofNat (decVal intDs) * unit +
                       Int.ofNat (decVal fracDs) * unit / scale
        match parseChunks fuel r3 with
        | .error e => .error e
        | .ok w => .ok (v + w)

def parseDuration (s : String) : Except String Int :=
  let cs := s.data
  let (neg, cs2) :=
    match cs with
    | '-' :: rest => (true, rest)
    | '+' :: rest => (false, rest)
    | _ => (false, cs)
  if cs2 = ['0'] then .ok 0
  else if cs2.isEmpty then .error "time: invalid duration"
  else
    match parseChunks (cs2.length + 1) cs2 with
    | .error e => .error e
    | .ok v => .ok (if neg then -v else v)

structure AggLoop where
  interval : Int
deriving Repr, DecidableEq

/-- Argument validation of handlerAgg: exactly one argument, parsed as a Go
duration; on success the polling loop is entered with that interval. -/
def handlerAgg (args : List String) : Except String AggLoop :=
  match args with
  | [a] =>
    match parseDuration a with
    | .error e => .error ("failed to parse duration string " ++ a ++ ": " ++ e)
    | .ok d => .ok { interval := d }
  | _ =>
    .error "agg command requires a single argument: <time_between_reqs> (e.g., 30s, 1m)"

inductive AggOutcome where
  | loopEntered (interval : Int)
  | exited (code : Nat) (stderrMsg : String)
deriving Repr, DecidableEq

/-- Outcome of the agg subcommand as wrapped by main: a handler error is
printed to stderr and the process exits with status 1; otherwise the polling
loop is entered and never returns. -/
def aggMain (args : List String) : AggOutcome :=
  match handlerAgg args with
  | .ok l => .loopEntered l.interval
  | .error e => .exited 1 ("Error running command agg: " ++ e)

/-! ## Timing shape of the agg loop

handlerAgg calls scrapeFeeds once immediately after creating the ticker and
then enters a loop whose post statement blocks on the ticker; each loop
iteration therefore runs its body first and waits for a tick afterwards. -/

inductive AggAction where
  | runCycle
  | waitTick
deriving Repr, DecidableEq

def tickerLoopActs : Nat → List AggAction
  | 0 => []
  | n + 1 => AggAction.runCycle :: AggAction.waitTick :: tickerLoopActs n

/-- Action trace of handlerAgg after argument validation: the immediate call
of scrapeFeeds followed by n loop iterations. -/
def aggActs (n : Nat) : List AggAction :=
  AggAction.runCycle :: tickerLoopActs n

/-! ## Command dispatch (main in main.go) -/

def registeredNames : List String :=
  ["reset", "register", "login", "addfeed", "feeds", "follow", "unfollow",
   "following", "agg"]

/-- Simple lower-case mapping of strings.ToLower restricted to the ASCII
range; every registered command name is ASCII. -/
def asciiLowerChar (c : Char) : Char :=
  if 'A' ≤ c ∧ c ≤ 'Z' then Char.ofNat (c.toNat + 32) else c

def lowerString (s : String) : String :=
  String.mk (s.data.map asciiLowerChar)

/-- Mirrors main followed by commands.run: the first argument is lowercased,
then looked up in the handler table; an unknown name is an error. -/
def dispatchCommand (arg : String) : Except String String :=
  let name := lowerString arg
  if registeredNames.contains name then .ok name
  else .error ("unknown command: " ++ name)

inductive CliOutcome where
  | handlerRun (name : String) (args : List String)
  | usageError (code : Nat) (stderrMsg : String)
deriving Repr, DecidableEq

/-- Top-level control flow of main on os.Args with the program name dropped:
missing command name or unknown command exits 1 with a stderr message,
otherwise control transfers to the selected handler. -/
def cliMain (argv : List String) : CliOutcome :=
  match argv with
  | [] =>
    .usageError 1 "Error: Not enough arguments provided. Command name is required."
  | cmd :: rest =>
    match dispatchCommand cmd with
    | .ok name => .handlerRun name rest
    | .error e =>
      .usageError 1 ("Error running command " ++ lowerString cmd ++ ": " ++ e)

/-! ## Shared fixtures for concrete evaluations -/

def demoDoc : RawDoc :=
  .wellFormed "rss"
    [.elemNode "channel"
      [.elemNode "title" [.text "Demo"],
       .elemNode "item"
         [.elemNode "title" [.text "first"], .elemNode "link" [.text "u1"]]]]

def demoFeedA : Feed :=
  { id := 0, name := "A", url := "a", lastFetchedAt := none, updatedAt := 0 }

def demoFeedB : Feed :=
  { id := 1, name := "B", url := "b", lastFetchedAt := some 10, updatedAt := 0 }

def demoFeedC : Feed :=
  { id := 2, name := "C", url := "c", lastFetchedAt := some 20, updatedAt := 0 }

def demoState : DBState :=
  { feeds := [demoFeedA, demoFeedB, demoFeedC] }

def demoEnv : String → TransportResult := fun _ => .response 200 demoDoc

def demoTimes : Nat → Nat := fun k => 100 + k

/-! ## Helper lemmas about the fetch cursor ordering -/

theorem tsLe_refl (a : Option Nat) : tsLe a a = true := by
  cases a <;> simp [tsLe]

theorem tsLe_total (a b : Option Nat) : tsLe a b = true ∨ tsLe b a = true := by
  cases a <;> cases b <;> simp [tsLe]
  omega

theorem tsLe_trans {a b c : Option Nat} (h1 : tsLe a b = true)
    (h2 : tsLe b c = true) : tsLe a c = true := by
  cases a <;> cases b <;> cases c <;> simp_all [tsLe]
  omega

theorem getNext_eq_none {fs : List Feed} (h : getNextFeedToFetch fs = none) :
    fs = [] := by
  cases fs with
  | nil => rfl
  | cons a l =>
    simp only [getNextFeedToFetch] at h
    cases hl : getNextFeedToFetch l with
    | none =>
      simp only [hl] at h
      exact Option.noConfusion h
    | some g =>
      simp only [hl] at h
      split at h <;> simp_all

theorem getNext_mem_and_min :
    ∀ (feeds : List Feed) (f : Feed), getNextFeedToFetch feeds = some f →
      f ∈ feeds ∧ ∀ g ∈ feeds, tsLe f.lastFetchedAt g.lastFetchedAt = true := by
  intro feeds
  induction feeds with
  | nil => intro f h; simp [getNextFeedToFetch] at h
  | cons a fs ih =>
    intro f h
    simp only [getNextFeedToFetch] at h
    cases hfs : getNextFeedToFetch fs with
    | none =>
      simp only [hfs] at h
      have hfa : a = f := by simpa using h
      subst hfa
      have hemp : fs = [] := getNext_eq_none hfs
      subst hemp
      refine ⟨List.mem_cons_self a [], ?_⟩
      intro g hg
      have : g = a := by simpa using hg
      subst this
      exact tsLe_refl _
    | some g =>
      simp only [hfs] at h
      by_cases hle : tsLe a.lastFetchedAt g.lastFetchedAt = true
      · rw [if_pos hle] at h
        have hfa : a = f := by simpa using h
        subst hfa
        obtain ⟨hmem, hmin⟩ := ih g hfs
        refine ⟨List.mem_cons_self a fs, ?_⟩
        intro x hx
        rcases List.mem_cons.mp hx with hxa | hxfs
        · subst hxa; exact tsLe_refl _
        · exact tsLe_trans hle (hmin x hxfs)
      · rw [if_neg hle] at h
        have hfg : g = f := by simpa using h
        subst hfg
        obtain ⟨hmem, hmin⟩ := ih g hfs
        refine ⟨List.mem_cons_of_mem a hmem, ?_⟩
        intro x hx
        rcases List.mem_cons.mp hx with hxa | hxfs
        · subst hxa
          rcases tsLe_total x.lastFetchedAt g.lastFetchedAt with htot | htot
          · exact absurd htot hle
          · exact htot
        · exact hmin x hxfs

/-- C1: whenever the Scheduler transitions from Idle to Fetching it selects
the feed whose last_fetched_at is oldest among all feeds, a null timestamp
counting as older than every non-null one; with feeds stamped T1 < T2 and one
never-fetched feed the selection order over three cycles is the never-fetched
feed, then the T1 feed, then the T2 feed; and with no feeds the cycle
performs no fetch and leaves the state unchanged. -/
theorem scheduler_selects_oldest_first :
    (∀ (feeds : List Feed) (f : Feed), getNextFeedToFetch feeds = some f →
       f ∈ feeds ∧ ∀ g ∈ feeds, tsLe f.lastFetchedAt g.lastFetchedAt = true) ∧
    (∀ (env : String → TransportResult) (now : Nat),
       scrapeFeeds env now { feeds := [] } =
         { state := { feeds := [] }, ops := [], logs := [] }) ∧
    ((runCycles (fun _ => demoEnv) demoTimes 3 demoState).2.map selectedId =
       [some 0, some 1, some 2]) := by
  refine ⟨getNext_mem_and_min, ?_, ?_⟩
  · intro env now; rfl
  · rfl

/-- Witness for C1: the general selection part applied to the demo feed list,
whose minimum is the never-fetched feed. -/
theorem scheduler_selects_oldest_first_witness :
    demoFeedA ∈ demoState.feeds ∧
      ∀ g ∈ demoState.feeds,
        tsLe demoFeedA.lastFetchedAt g.lastFetchedAt = true :=
  scheduler_selects_oldest_first.1 demoState.feeds demoFeedA (by decide)

/-! ## Operation order within one cycle (claim C2) -/

def isMarkOp : Op → Bool
  | .markFetched _ _ => true
  | _ => false

def isFetchOp : Op → Bool
  | .fetchOp _ => true
  | _ => false

def isReconcileOp : Op → Bool
  | .reconcileOp _ => true
  | _ => false

/-- Order condition asserted by the claim for one cycle trace: the
mark-fetched mutation occurs only after the fetch stage. -/
def updateAfterPipeline (ops : List Op) : Bool :=
  match ops.findIdx? isMarkOp, ops.findIdx? isFetchOp with
  | some i, some j => decide (j < i)
  | _, _ => true

theorem scrapeFeeds_no_reconcile :
    ∀ (env : String → TransportResult) (now : Nat) (st : DBState) (fid : Nat),
      Op.reconcileOp fid ∉ (scrapeFeeds env now st).ops := by
  intro env now st fid
  cases hsel : getNextFeedToFetch st.feeds with
  | none => simp [scrapeFeeds, hsel]
  | some f =>
    cases hr : env f.url with
    | transportError t =>
      simp [scrapeFeeds, hsel, hr, fetchFeed, fetchStageOps]
    | response status body =>
      by_cases hst : status = 200
      · subst hst
        cases hd : decodeRSS body with
        | error e => simp [scrapeFeeds, hsel, hr, fetchFeed, fetchStageOps, hd]
        | ok g => simp [scrapeFeeds, hsel, hr, fetchFeed, fetchStageOps, hd]
      · simp [scrapeFeeds, hsel, hr, fetchFeed, fetchStageOps, hst]

/-- Counterexample for C2: in the concrete successful cycle on the demo
state, the mark-fetched mutation is at index 1 of the operation trace and the
fetch at index 2, so the update does not happen after fetch, parse and
reconcile; moreover no reconcile operation occurs at all. -/
theorem cycle_update_order_counterexample :
    updateAfterPipeline (scrapeFeeds demoEnv 100 demoState).ops = false ∧
    (scrapeFeeds demoEnv 100 demoState).ops.any isReconcileOp = false := by
  exact ⟨by decide, by decide⟩

/-- C2 amended: within every cycle that selects a feed, the mark-fetched
mutation happens immediately after selection and before the fetch and parse
stages, setting the timestamp to the cycle start time regardless of outcome,
and no reconcile step exists in the cycle. -/
theorem cycle_marks_fetched_before_fetch :
    ∀ (env : String → TransportResult) (now : Nat) (st : DBState) (f : Feed),
      getNextFeedToFetch st.feeds = some f →
      (scrapeFeeds env now st).ops.take 3 =
        [Op.selectOp f.id, Op.markFetched f.id now, Op.fetchOp f.id] ∧
      (scrapeFeeds env now st).state.feeds = markFeedFetched f.id now st.feeds ∧
      ∀ fid, Op.reconcileOp fid ∉ (scrapeFeeds env now st).ops := by
  intro env now st f hsel
  refine ⟨?_, ?_, fun fid => scrapeFeeds_no_reconcile env now st fid⟩ <;>
  · cases hr : env f.url with
    | transportError t =>
      simp [scrapeFeeds, hsel, hr, fetchFeed, fetchStageOps]
    | response status body =>
      by_cases hst : status = 200
      · subst hst
        cases hd : decodeRSS body with
        | error e => simp [scrapeFeeds, hsel, hr, fetchFeed, fetchStageOps, hd]
        | ok g => simp [scrapeFeeds, hsel, hr, fetchFeed, fetchStageOps, hd]
      · simp [scrapeFeeds, hsel, hr, fetchFeed, fetchStageOps, hst]

/-- Witness for the amended C2 at the demo state. -/
theorem cycle_marks_fetched_before_fetch_witness :
    (scrapeFeeds demoEnv 100 demoState).ops.take 3 =
      [Op.selectOp demoFeedA.id, Op.markFetched demoFeedA.id 100,
       Op.fetchOp demoFeedA.id] ∧
    (scrapeFeeds demoEnv 100 demoState).state.feeds =
      markFeedFetched demoFeedA.id 100 demoState.feeds ∧
    ∀ fid, Op.reconcileOp fid ∉ (scrapeFeeds demoEnv 100 demoState).ops :=
  cycle_marks_fetched_before_fetch demoEnv 100 demoState demoFeedA (by decide)

/-! ## Reconciler lemmas (claim C3) -/

theorem hasUrl_append (s t : List Post) (u : String) :
    hasUrl (s ++ t) u = (hasUrl s u || hasUrl t u) := by
  simp [hasUrl, List.any_append]

theorem hasUrl_insert_self (s : List Post) (p : Post) :
    hasUrl (insertPost s p) p.url = true := by
  by_cases h : hasUrl s p.url = true
  · simp [insertPost, h]
  · unfold insertPost
    rw [if_neg h, hasUrl_append]
    have hone : hasUrl [p] p.url = true := by simp [hasUrl]
    rw [hone, Bool.or_true]

theorem hasUrl_insert_mono {s : List Post} {u : String} (q : Post)
    (h : hasUrl s u = true) : hasUrl (insertPost s q) u = true := by
  by_cases hq : hasUrl s q.url = true
  · simpa [insertPost, hq]
  · simp [insertPost, hq, hasUrl_append, h]

theorem reconcile_nil (fid : Nat) (s : List Post) : reconcile fid s [] = s := rfl

theorem reconcile_cons (fid : Nat) (s : List Post) (i : RSSItem)
    (items : List RSSItem) :
    reconcile fid s (i :: items) =
      reconcile fid (insertPost s (postOfItem fid i)) items := rfl

theorem hasUrl_reconcile_mono (fid : Nat) :
    ∀ (items : List RSSItem) (s : List Post) (u : String),
      hasUrl s u = true → hasUrl (reconcile fid s items) u = true := by
  intro items
  induction items with
  | nil => intro s u h; simpa [reconcile_nil]
  | cons i rest ih =>
    intro s u h
    rw [reconcile_cons]
    exact ih _ _ (hasUrl_insert_mono _ h)

theorem hasUrl_reconcile_of_mem (fid : Nat) :
    ∀ (items : List RSSItem) (s : List Post) (i : RSSItem), i ∈ items →
      hasUrl (reconcile fid s items) i.link = true := by
  intro items
  induction items with
  | nil => intro s i h; simp at h
  | cons j rest ih =>
    intro s i h
    rw [reconcile_cons]
    rcases List.mem_cons.mp h with hj | hmem
    · subst hj
      apply hasUrl_reconcile_mono
      have := hasUrl_insert_self s (postOfItem fid i)
      simpa [postOfItem] using this
    · exact ih _ _ hmem

theorem reconcile_noop_of_present (fid : Nat) :
    ∀ (items : List RSSItem) (s : List Post),
      (∀ i ∈ items, hasUrl s i.link = true) → reconcile fid s items = s := by
  intro items
  induction items with
  | nil => intro s _; rfl
  | cons i rest ih =>
    intro s h
    rw [reconcile_cons]
    have hins : insertPost s (postOfItem fid i) = s := by
      have := h i (List.mem_cons_self i rest)
      simp [insertPost, postOfItem, this]
    rw [hins]
    exact ih s (fun j hj => h j (List.mem_cons_of_mem i hj))

theorem reconcile_idem (fid : Nat) (s : List Post) (items : List RSSItem) :
    reconcile fid (reconcile fid s items) items = reconcile fid s items :=
  reconcile_noop_of_present fid items _
    (fun i hi => hasUrl_reconcile_of_mem fid items s i hi)

theorem length_filter_mono {α : Type} (p q : α → Bool) (l : List α)
    (h : ∀ a, p a = true → q a = true) :
    (l.filter p).length ≤ (l.filter q).length := by
  induction l with
  | nil => simp
  | cons a l ih =>
    rw [List.filter_cons, List.filter_cons]
    by_cases hp : p a = true
    · rw [if_pos hp, if_pos (h a hp)]
      simpa using Nat.succ_le_succ ih
    · rw [if_neg hp]
      by_cases hq : q a = true
      · rw [if_pos hq]
        exact Nat.le_succ_of_le ih
      · rw [if_neg hq]
        exact ih

theorem length_filter_drop_one {α : Type} [DecidableEq α] (p : α → Bool)
    (l : List α) (x : α) (hx : x ∈ l) (hpx : p x = true) :
    (l.filter fun u => p u && !(decide (x = u))).length + 1 ≤
      (l.filter p).length := by
  have hperm : l.Perm (x :: l.erase x) := List.perm_cons_erase hx
  have h1 : (l.filter p).length = ((x :: l.erase x).filter p).length :=
    (hperm.filter p).length_eq
  have h2 : (x :: l.erase x).filter p = x :: (l.erase x).filter p := by
    rw [List.filter_cons, if_pos hpx]
  have h3 : (l.filter fun u => p u && !(decide (x = u))).length =
      ((l.erase x).filter fun u => p u && !(decide (x = u))).length := by
    have hl := (hperm.filter fun u => p u && !(decide (x = u))).length_eq
    rw [hl, List.filter_cons]
    simp
  have h4 : ((l.erase x).filter fun u => p u && !(decide (x = u))).length ≤
      ((l.erase x).filter p).length :=
    length_filter_mono _ _ _
      (fun a ha => by
        simp only [Bool.and_eq_true] at ha
        exact ha.1)
  rw [h1, h2]
  simp only [List.length_cons]
  omega

theorem reconcile_length_bound (fid : Nat) :
    ∀ (items : List RSSItem) (s : List Post),
      (reconcile fid s items).length ≤
        s.length + ((itemUrls items).dedup.filter fun u => !hasUrl s u).length := by
  intro items
  induction items with
  | nil => intro s; simp [reconcile_nil, itemUrls]
  | cons i rest ih =>
    intro s
    rw [reconcile_cons]
    have hurls : itemUrls (i :: rest) = i.link :: itemUrls rest := rfl
    by_cases hmem : hasUrl s i.link = true
    · have hins : insertPost s (postOfItem fid i) = s := by
        simp [insertPost, postOfItem, hmem]
      rw [hins]
      refine le_trans (ih s) ?_
      have hle : ((itemUrls rest).dedup.filter fun u => !hasUrl s u).length ≤
          ((itemUrls (i :: rest)).dedup.filter fun u => !hasUrl s u).length := by
        rw [hurls]
        by_cases h2 : i.link ∈ itemUrls rest
        · rw [List.dedup_cons_of_mem h2]
        · rw [List.dedup_cons_of_not_mem h2, List.filter_cons]
          split
          · exact Nat.le_succ _
          · exact le_refl _
      omega
    · have hmemf : hasUrl s i.link = false := by
        cases hv : hasUrl s i.link
        · rfl
        · exact absurd hv hmem
      have hins : insertPost s (postOfItem fid i) =
          s ++ [postOfItem fid i] := by
        simp [insertPost, postOfItem, hmemf]
      rw [hins]
      refine le_trans (ih (s ++ [postOfItem fid i])) ?_
      have hlen : (s ++ [postOfItem fid i]).length = s.length + 1 := by simp
      rw [hlen]
      have hP2 : ∀ u, (!hasUrl (s ++ [postOfItem fid i]) u) =
          ((!hasUrl s u) && !(decide (i.link = u))) := by
        intro u
        rw [hasUrl_append]
        have hone : hasUrl [postOfItem fid i] u = decide (i.link = u) := by
          simp [hasUrl, postOfItem]
        rw [hone, Bool.not_or]
      have hfc :
          ((itemUrls rest).dedup.filter
            fun u => !hasUrl (s ++ [postOfItem fid i]) u) =
          ((itemUrls rest).dedup.filter
            fun u => (!hasUrl s u) && !(decide (i.link = u))) :=
        List.filter_congr (fun a _ => hP2 a)
      rw [hfc, hurls]
      by_cases h2 : i.link ∈ itemUrls rest
      · rw [List.dedup_cons_of_mem h2]
        have hxmem : i.link ∈ (itemUrls rest).dedup := List.mem_dedup.mpr h2
        have hpx : (!hasUrl s i.link) = true := by simp [hmemf]
        have hkey := length_filter_drop_one (fun u => !hasUrl s u)
          (itemUrls rest).dedup i.link hxmem hpx
        have hkey2 :
            ((itemUrls rest).dedup.filter
              fun u => (!hasUrl s u) && !(decide (i.link = u))).length + 1 ≤
            ((itemUrls rest).dedup.filter fun u => !hasUrl s u).length := hkey
        omega
      · rw [List.dedup_cons_of_not_mem h2, List.filter_cons,
          if_pos (show (!hasUrl s i.link) = true by simp [hmemf])]
        have hfc2 :
            ((itemUrls rest).dedup.filter
              fun u => (!hasUrl s u) && !(decide (i.link = u))) =
            ((itemUrls rest).dedup.filter fun u => !hasUrl s u) := by
          apply List.filter_congr
          intro a ha
          have hne : i.link ≠ a := fun he => h2 (he ▸ List.mem_dedup.mp ha)
          simp [hne]
        rw [hfc2]
        simp only [List.length_cons]
        omega

theorem reconcile_count_le_distinct (fid : Nat) (s : List Post)
    (items : List RSSItem) :
    (reconcile fid s items).length ≤ s.length + (itemUrls items).dedup.length :=
  le_trans (reconcile_length_bound fid items s)
    (Nat.add_le_add_left (List.length_filter_le _ _) _)

/-- C3: reconciliation is idempotent per (feed, entry-URL) pair — running it
twice with the same feed and entry sequence equals running it once, the post
count after the double run stays within the starting count plus the number of
distinct entry URLs, and inserting a post whose URL already exists is a
benign no-op returning the store unchanged. -/
theorem reconciler_idempotent_dedup :
    (∀ (fid : Nat) (s : List Post) (items : List RSSItem),
       reconcile fid (reconcile fid s items) items = reconcile fid s items) ∧
    (∀ (fid : Nat) (s : List Post) (items : List RSSItem),
       (reconcile fid (reconcile fid s items) items).length ≤
         s.length + (itemUrls items).dedup.length) ∧
    (∀ (s : List Post) (p : Post),
       hasUrl s p.url = true → insertPost s p = s) := by
  refine ⟨reconcile_idem, ?_, ?_⟩
  · intro fid s items
    rw [reconcile_idem]
    exact reconcile_count_le_distinct fid s items
  · intro s p h
    simp [insertPost, h]

def demoPost : Post := { feedId := 0, url := "u1", title := "first" }

/-- Witness for C3: the no-op part applied to a store already holding the
post URL. -/
theorem reconciler_idempotent_dedup_witness :
    insertPost [demoPost] demoPost = [demoPost] :=
  reconciler_idempotent_dedup.2.2 [demoPost] demoPost (by decide)

/-! ## Failure isolation (claim C4) -/

theorem runCyclesFrom_length :
    ∀ (env : Nat → String → TransportResult) (times : Nat → Nat)
      (k n : Nat) (st : DBState),
      (runCyclesFrom env times k n st).2.length = n := by
  intro env times k n
  induction n generalizing k with
  | zero => intro st; rfl
  | succ m ih => intro st; simp [runCyclesFrom, ih]

def env500 : String → TransportResult := fun _ => .response 500 demoDoc

/-- C4: a feed whose fetch fails does not terminate the polling loop — the
cycle returns normally with the error logged together with the feed name and
URL, and the loop runs every scheduled cycle regardless of outcomes. -/
theorem scheduler_failure_isolated :
    (∀ (env : String → TransportResult) (now : Nat) (st : DBState) (f : Feed)
       (e : FetchErr),
       getNextFeedToFetch st.feeds = some f →
       fetchFeed (env f.url) = .error e →
       (scrapeFeeds env now st).logs =
         [">> Fetching feed: " ++ f.name ++ " from " ++ f.url,
          "Error fetching RSS feed " ++ f.name ++ " (" ++ f.url ++ "): " ++
            errString e]) ∧
    (∀ (env : Nat → String → TransportResult) (times : Nat → Nat)
       (k n : Nat) (st : DBState),
       (runCyclesFrom env times k n st).2.length = n) := by
  constructor
  · intro env now st f e hsel hf
    simp [scrapeFeeds, hsel, hf]
  · exact runCyclesFrom_length

/-- Witness for C4 at an HTTP 500 response on the demo state. -/
theorem scheduler_failure_isolated_witness :
    (scrapeFeeds env500 100 demoState).logs =
      [">> Fetching feed: " ++ demoFeedA.name ++ " from " ++ demoFeedA.url,
       "Error fetching RSS feed " ++ demoFeedA.name ++ " (" ++
         demoFeedA.url ++ "): " ++ errString (.badStatus 500)] :=
  scheduler_failure_isolated.1 env500 100 demoState demoFeedA
    (.badStatus 500) (by decide) rfl

/-! ## Fetcher status handling (claim C5) -/

/-- Counterexample for C5: the status code 201 is a 2xx response, yet the
Fetcher fails on it, because the code rejects every status other than 200. -/
theorem fetcher_two_xx_counterexample :
    (200 ≤ 201 ∧ 201 < 300) ∧
    fetchFeed (.response 201 demoDoc) = .error (.badStatus 201) :=
  ⟨by decide, rfl⟩

/-- C5 amended: the Fetcher returns a transport error (including timeout) on
network failure, an error carrying the status code on any non-200 response,
and on a 200 response returns the parsed, entity-unescaped feed when the body
decodes, or a parse error otherwise. -/
theorem fetcher_error_contract :
    (∀ t : Bool, fetchFeed (.transportError t) = .error (.network t)) ∧
    (∀ (status : Nat) (body : RawDoc), status ≠ 200 →
       fetchFeed (.response status body) = .error (.badStatus status)) ∧
    (∀ (body : RawDoc) (g : RSSFeed), decodeRSS body = .ok g →
       fetchFeed (.response 200 body) = .ok (unescapeHTMLFields g)) ∧
    (∀ (body : RawDoc) (e : ParseErr), decodeRSS body = .error e →
       fetchFeed (.response 200 body) = .error (.unmarshal e)) := by
  refine ⟨fun t => rfl, ?_, ?_, ?_⟩
  · intro status body h
    simp [fetchFeed, h]
  · intro body g h
    simp [fetchFeed, h]
  · intro body e h
    simp [fetchFeed, h]

/-- Witness for the amended C5 at the status code 500. -/
theorem fetcher_error_contract_witness :
    fetchFeed (.response 500 demoDoc) = .error (.badStatus 500) :=
  fetcher_error_contract.2.1 500 demoDoc (by decide)

/-! ## Parser failure domain (claim C6) -/

/-- C6: decoding fails exactly on a document that is not well-formed XML or
whose root element is not the required rss root; every well-formed document
with the rss root decodes successfully, and zero item elements yield an empty
entry sequence, not an error. -/
theorem parser_contract :
    (decodeRSS .malformed = .error .notWellFormed) ∧
    (∀ (r : String) (cs : List XMLNode), r ≠ "rss" →
       decodeRSS (.wellFormed r cs) = .error (.wrongRoot r)) ∧
    (∀ cs : List XMLNode, ∃ f : RSSFeed,
       decodeRSS (.wellFormed "rss" cs) = .ok f ∧
       f.channel.item.length = (channelItems cs).length ∧
       (channelItems cs = [] → f.channel.item = [])) := by
  refine ⟨rfl, ?_, ?_⟩
  · intro r cs h
    simp [decodeRSS, h]
  · intro cs
    cases hch : findElem "channel" cs with
    | none =>
      refine ⟨{ channel := emptyChannel }, ?_, ?_, ?_⟩
      · simp [decodeRSS, hch]
      · simp [channelItems, hch, emptyChannel]
      · intro _; rfl
    | some ch =>
      refine ⟨{ channel :=
        { title := childText "title" ch
          link := childText "link" ch
          description := childText "description" ch
          item := (elemsNamed "item" ch).map decodeItem } }, ?_, ?_, ?_⟩
      · simp [decodeRSS, hch]
      · simp [channelItems, hch]
      · intro hz
        have hz2 : elemsNamed "item" ch = [] := by
          simpa [channelItems, hch] using hz
        simp [hz2]

/-- Witness for C6 at a well-formed document with an atom root. -/
theorem parser_contract_witness :
    decodeRSS (.wellFormed "feed" []) = .error (.wrongRoot "feed") :=
  parser_contract.2.1 "feed" [] (by decide)

/-! ## Entity unescaping of parsed fields (claim C7) -/

def entityFeed : RSSFeed :=
  { channel :=
    { title := "a &amp; b", link := "", description := "",
      item := [{ title := "x &#39;", link := "", description := "d &lt;",
                 pubDate := "" }] } }

def entityDoc : RawDoc :=
  .wellFormed "rss"
    [.elemNode "channel"
      [.elemNode "title" [.text "a &amp; b"],
       .elemNode "item"
         [.elemNode "title" [.text "x &#39;"],
          .elemNode "description" [.text "d &lt;"]]]]

/-- C7: for every successfully fetched feed, channel and item titles and
descriptions are the HTML-entity-unescaped forms of the text parsed from the
document; entity-encoded examples decode to plain text. -/
theorem parser_unescapes_entities :
    (∀ (doc : RawDoc) (f g : RSSFeed),
       fetchFeed (.response 200 doc) = .ok f → decodeRSS doc = .ok g →
       f.channel.title = unescapeString g.channel.title ∧
       f.channel.description = unescapeString g.channel.description ∧
       (f.channel.item.map fun i => i.title) =
         (g.channel.item.map fun i => unescapeString i.title) ∧
       (f.channel.item.map fun i => i.description) =
         (g.channel.item.map fun i => unescapeString i.description)) ∧
    unescapeString "a &amp; b" = "a & b" ∧
    unescapeString "&#39;" = String.mk [Char.ofNat 39] := by
  refine ⟨?_, rfl, rfl⟩
  intro doc f g hf hg
  have hred : fetchFeed (.response 200 doc) = .ok (unescapeHTMLFields g) := by
    simp [fetchFeed, hg]
  rw [hred] at hf
  have hfg : unescapeHTMLFields g = f := by
    injection hf
  subst hfg
  refine ⟨rfl, rfl, ?_, ?_⟩
  · simp [unescapeHTMLFields, unescapeItem, List.map_map, Function.comp]
  · simp [unescapeHTMLFields, unescapeItem, List.map_map, Function.comp]

/-- Witness for C7 at a document holding entity-encoded titles. -/
theorem parser_unescapes_entities_witness :
    (unescapeHTMLFields entityFeed).channel.title =
      unescapeString entityFeed.channel.title ∧
    (unescapeHTMLFields entityFeed).channel.description =
      unescapeString entityFeed.channel.description ∧
    ((unescapeHTMLFields entityFeed).channel.item.map fun i => i.title) =
      (entityFeed.channel.item.map fun i => unescapeString i.title) ∧
    ((unescapeHTMLFields entityFeed).channel.item.map fun i => i.description) =
      (entityFeed.channel.item.map fun i => unescapeString i.description) :=
  parser_unescapes_entities.1 entityDoc (unescapeHTMLFields entityFeed)
    entityFeed rfl rfl

/-! ## The agg argument contract (claim C8) -/

/-- C8: the agg subcommand takes exactly one Go-duration argument; with one
well-formed duration it enters the polling loop with that interval, and with
a wrong argument count or an unparsable duration it exits with status 1 and a
stderr message without entering the loop. -/
theorem agg_argument_contract :
    (∀ (s : String) (d : Int), parseDuration s = .ok d →
       aggMain [s] = .loopEntered d) ∧
    (∀ (s e : String), parseDuration s = .error e →
       aggMain [s] = .exited 1
         ("Error running command agg: " ++
           ("failed to parse duration string " ++ s ++ ": " ++ e))) ∧
    (∀ args : List String, args.length ≠ 1 →
       aggMain args = .exited 1
         ("Error running command agg: agg command requires a single argument: <time_between_reqs> (e.g., 30s, 1m)")) := by
  refine ⟨?_, ?_, ?_⟩
  · intro s d h
    simp [aggMain, handlerAgg, h]
  · intro s e h
    simp [aggMain, handlerAgg, h]
  · intro args h
    cases args with
    | nil => rfl
    | cons a rest =>
      cases rest with
      | nil => exact absurd rfl h
      | cons b rest2 => rfl

/-- Witness for C8 at the duration 30s and at an empty argument list. -/
theorem agg_argument_contract_witness :
    aggMain ["30s"] = .loopEntered 30000000000 ∧
    aggMain [] = .exited 1
      ("Error running command agg: agg command requires a single argument: <time_between_reqs> (e.g., 30s, 1m)") :=
  ⟨agg_argument_contract.1 "30s" 30000000000 rfl,
   agg_argument_contract.2.2 [] (by decide)⟩

/-! ## First cycle timing of the agg loop (claim C9) -/

theorem tickerLoopActs_wait_succ :
    ∀ (n i : Nat), (tickerLoopActs n).get? i = some .waitTick →
      ∃ j, i = j + 1 ∧ (tickerLoopActs n).get? j = some .runCycle := by
  intro n
  induction n with
  | zero => intro i h; simp [tickerLoopActs] at h
  | succ m ih =>
    intro i h
    cases i with
    | zero => simp [tickerLoopActs] at h
    | succ i1 =>
      cases i1 with
      | zero => exact ⟨0, rfl, by simp [tickerLoopActs]⟩
      | succ i2 =>
        have h2 : (tickerLoopActs m).get? i2 = some .waitTick := by
          simpa [tickerLoopActs] using h
        obtain ⟨j, hj, hg⟩ := ih i2 h2
        refine ⟨j + 2, by omega, ?_⟩
        simpa [tickerLoopActs] using hg

/-- C9: the first action of the agg command after argument validation is an
immediate fetch cycle with no preceding wait, and every wait in the trace
immediately follows a fetch cycle, so the interval is only observed between
cycles. -/
theorem agg_first_cycle_immediate :
    (∀ n : Nat, (aggActs n).get? 0 = some .runCycle) ∧
    (∀ (n i : Nat), (aggActs n).get? i = some .waitTick →
       ∃ j, i = j + 1 ∧ (aggActs n).get? j = some .runCycle) := by
  constructor
  · intro n; rfl
  · intro n i h
    cases i with
    | zero => simp [aggActs] at h
    | succ i1 =>
      have h2 : (tickerLoopActs n).get? i1 = some .waitTick := by
        simpa [aggActs] using h
      obtain ⟨j, hj, hg⟩ := tickerLoopActs_wait_succ n i1 h2
      refine ⟨j + 1, by omega, ?_⟩
      simpa [aggActs] using hg

/-- Witness for C9 on the trace with two loop iterations, whose first wait
sits at index 2. -/
theorem agg_first_cycle_immediate_witness :
    (aggActs 2).get? 0 = some AggAction.runCycle ∧
    ∃ j, 2 = j + 1 ∧ (aggActs 2).get? j = some AggAction.runCycle :=
  ⟨agg_first_cycle_immediate.1 2,
   agg_first_cycle_immediate.2 2 2 (by decide)⟩

/-! ## Case-insensitive command dispatch (claim C10) -/

/-- C10: the command name is lowercased before handler lookup, so every input
agreeing with a registered name up to letter case selects that handler, and
an input whose lowercased form is not registered yields an unknown-command
error and exit status 1. -/
theorem dispatch_case_insensitive :
    (∀ name ∈ registeredNames, lowerString name = name) ∧
    (∀ (name input : String), name ∈ registeredNames →
       lowerString input = name → dispatchCommand input = .ok name) ∧
    (∀ (input : String) (rest : List String),
       registeredNames.contains (lowerString input) = false →
       dispatchCommand input =
         .error ("unknown command: " ++ lowerString input) ∧
       cliMain (input :: rest) = .usageError 1
         ("Error running command " ++ lowerString input ++ ": " ++
           ("unknown command: " ++ lowerString input))) := by
  refine ⟨by decide, ?_, ?_⟩
  · intro name input hmem hlow
    simp [dispatchCommand, hlow, hmem]
  · intro input rest hc
    have hnm : lowerString input ∉ registeredNames := by simpa using hc
    constructor
    · simp [dispatchCommand, hnm]
    · simp [cliMain, dispatchCommand, hnm]

/-- Witness for C10: an upper-case spelling of agg selects the agg handler,
and an unregistered name exits 1 with the unknown-command message. -/
theorem dispatch_case_insensitive_witness :
    dispatchCommand "AGG" = .ok "agg" ∧
    dispatchCommand "bogus" =
      .error ("unknown command: " ++ lowerString "bogus") ∧
    cliMain ["bogus"] = .usageError 1
      ("Error running command " ++ lowerString "bogus" ++ ": " ++
        ("unknown command: " ++ lowerString "bogus")) :=
  ⟨dispatch_case_insensitive.2.1 "agg" "AGG" (by decide) (by decide),
   (dispatch_case_insensitive.2.2 "bogus" [] (by decide)).1,
   (dispatch_case_insensitive.2.2 "bogus" [] (by decide)).2⟩

end Gator
